import Mathlib

/-!
Verification of the content-addressable object store implemented in
src/src/main.rs (git-from-scratch): the CatFile read path, the HashObject
write path, the LimitReader bounded reader and the HashWriter streaming
hasher, embedded shallowly over byte lists. SHA-1 and zlib are external
library code and appear as function parameters; the claims under study are
about which bytes flow into them, never about their internals.
-/

set_option autoImplicit false

namespace GitCore

/-- Byte sequences as lists of naturals (every byte the program produces is
below 256). -/
abbrev Bytes := List Nat

/-- UTF-8 bytes of an ASCII string literal (used only on ASCII literals,
where code points and bytes coincide). -/
def strBytes (s : String) : Bytes := s.data.map Char.toNat

/-- ASCII decimal digits of a natural number, fueled so that the definition
is structurally recursive; matches the Display formatting used by
write_blob for the size. -/
def decimalDigitsAux : Nat → Nat → Bytes
  | 0, _ => []
  | Nat.succ fuel, n =>
    if n < 10 then [48 + n] else decimalDigitsAux fuel (n / 10) ++ [48 + n % 10]

/-- ASCII decimal representation of a natural number (n + 1 units of fuel
always suffice, since the digit count of n is at most n + 1). -/
def decimalDigits (n : Nat) : Bytes := decimalDigitsAux (n + 1) n

/-- Numeric value of an ASCII digit byte. -/
def digitVal (b : Nat) : Nat := b - 48

/-- Whether a byte is an ASCII digit. -/
def isDigitByte (b : Nat) : Bool := 48 ≤ b && b ≤ 57

/-- Largest value of a Rust u64. -/
def u64Max : Nat := 2 ^ 64 - 1

/-- Rust str::parse::<u64> on the bytes of the string: an optional leading
plus sign, then one or more ASCII digits, with overflow past u64::MAX
rejected. Rust checks overflow at every fold step; the accumulator is
monotone, so that is equivalent to checking the final value. -/
def parseU64 (s : Bytes) : Option Nat :=
  let t := if s.headD 0 = 43 then s.tail else s
  if t = [] then none
  else if t.all isDigitByte then
    let v := t.foldl (fun acc b => acc * 10 + digitVal b) 0
    if v ≤ u64Max then some v else none
  else none

/-- Whether a byte is a UTF-8 continuation byte (0b10xxxxxx). -/
def isContByte (b : Nat) : Bool := 128 ≤ b && b ≤ 191

/-- The standard UTF-8 acceptor as a byte-at-a-time automaton: expected is
the number of continuation bytes still owed, with [lo, hi] the admissible
range of the next byte (the tightened first-continuation ranges after E0,
ED, F0 and F4 exclude overlong encodings and surrogates, exactly as the
str validation behind CStr::to_str does). -/
def utf8ValidFrom : Nat → Nat → Nat → Bytes → Bool
  | 0, _, _, [] => true
  | Nat.succ _, _, _, [] => false
  | 0, _, _, b :: bs =>
    if b < 128 then utf8ValidFrom 0 0 0 bs
    else if 194 ≤ b && b ≤ 223 then utf8ValidFrom 1 128 191 bs
    else if b = 224 then utf8ValidFrom 2 160 191 bs
    else if (225 ≤ b && b ≤ 236) || (238 ≤ b && b ≤ 239) then utf8ValidFrom 2 128 191 bs
    else if b = 237 then utf8ValidFrom 2 128 159 bs
    else if b = 240 then utf8ValidFrom 3 144 191 bs
    else if 241 ≤ b && b ≤ 243 then utf8ValidFrom 3 128 191 bs
    else if b = 244 then utf8ValidFrom 3 128 143 bs
    else false
  | Nat.succ k, lo, hi, b :: bs =>
    if lo ≤ b && b ≤ hi then utf8ValidFrom k 128 191 bs else false

/-- UTF-8 validity of a byte sequence: the check performed by
CStr::to_str on the header bytes. -/
def utf8Valid (l : Bytes) : Bool := utf8ValidFrom 0 0 0 l

/-- The distinct failure sites of the CatFile branch of main. -/
inductive GetError
  /-- ensure failure: the object hash argument is not 40 bytes long. -/
  | invalidInput
  /-- File::open of the resolved object path fails. -/
  | notFound
  /-- header.to_str() fails: the header bytes are not valid UTF-8. -/
  | corruptUtf8
  /-- header.split_once(space) is None: no space in the header. -/
  | corruptNoSpace
  /-- the kind token is not "blob". -/
  | unsupportedKind
  /-- header.strip_prefix("blob ") is None. -/
  | corruptNoBlobTag
  /-- size.parse::<u64>() fails. -/
  | corruptBadSize
  /-- LimitReader returned its limit-exceeded read error. -/
  | limitExceeded
  /-- ensure failure: copied byte count differs from the declared size. -/
  | sizeMismatch
deriving DecidableEq

/-- Result of a code path that can return normally, return an error, or hit
a Rust panic (expect / out-of-bounds slicing). -/
inductive Outcome (α : Type)
  | ok : α → Outcome α
  | err : GetError → Outcome α
  | panic : Outcome α
deriving DecidableEq

/-- Errors the design files under the Corrupt kind: header-decoding
failures. -/
def isCorrupt : GetError → Bool
  | .corruptUtf8 => true
  | .corruptNoSpace => true
  | .corruptNoBlobTag => true
  | .corruptBadSize => true
  | _ => false

/-- Errors the design files under the SizeMismatch kind: short read, or the
limit-exceeded (trailing data) variant. -/
def isSizeMismatch : GetError → Bool
  | .limitExceeded => true
  | .sizeMismatch => true
  | _ => false

/-- BufRead::read_until(0): the bytes consumed — everything up to and
including the first NUL, or the whole stream when no NUL occurs. -/
def takeThroughNul : Bytes → Bytes
  | [] => []
  | b :: bs => if b = 0 then [0] else b :: takeThroughNul bs

/-- Bytes left in the stream after read_until(0). -/
def dropThroughNul : Bytes → Bytes
  | [] => []
  | b :: bs => if b = 0 then bs else dropThroughNul bs

/-- LimitReader::read first truncates the caller buffer to limit + 1 bytes:
the capacity actually offered to the underlying reader. -/
def lrCap (limit bufLen : Nat) : Nat :=
  if bufLen > limit then limit + 1 else bufLen

/-- The tail of one LimitReader::read call: the underlying reader returned
k bytes; the call errors when k exceeds the remaining limit, otherwise the
limit decreases by k. -/
def lrReadStep (limit k : Nat) : Option Nat :=
  if k > limit then none else some (limit - k)

/-- A sequence of LimitReader::read calls: each entry is (caller buffer
length, byte count the underlying source returns, clipped to the offered
capacity). Returns (total bytes yielded to the caller, whether the
limit-exceeded error occurred); an erroring call yields nothing and ends
the sequence. -/
def lrRun (limit : Nat) : List (Nat × Nat) → Nat × Bool
  | [] => (0, false)
  | (bufLen, n) :: rest =>
    let k := min n (lrCap limit bufLen)
    match lrReadStep limit k with
    | none => (0, true)
    | some limit2 =>
      let p := lrRun limit2 rest
      (k + p.1, p.2)

/-- One LimitReader::read against a source still holding avail bytes that
fills the offered buffer as far as it can: the yielded count, or none for
the limit-exceeded error. -/
def lrReadSlice (limit bufLen avail : Nat) : Option Nat :=
  let n := min (lrCap limit bufLen) avail
  if n > limit then none else some n

/-- std::io::copy driving a LimitReader over a source still holding src:
each iteration reads into a buffer of B bytes (so the underlying source
sees lrCap limit B of capacity and fills it as far as it can), appends the
bytes read, and stops when a read returns 0 bytes; none is the
limit-exceeded error. fuel bounds the iteration count; copyLoopBytes below
always supplies enough. -/
def copyLoopAux (B : Nat) : Nat → Nat → Bytes → Option Bytes
  | 0, _, _ => none
  | Nat.succ fuel, limit, src =>
    let n := min (lrCap limit B) src.length
    if n = 0 then some []
    else if limit < n then none
    else
      match copyLoopAux B fuel (limit - n) (src.drop n) with
      | none => none
      | some tail => some (src.take n ++ tail)

/-- The io::copy loop with adequate fuel: every iteration that recurses
consumes at least one source byte, so src.length + 1 iterations always
suffice. -/
def copyLoopBytes (B limit : Nat) (src : Bytes) : Option Bytes :=
  copyLoopAux B (src.length + 1) limit src

/-- The in-memory state the CatFile branch ends with: buf is the Vec that
receives the header bytes and then — because the code passes the Vec, not
stdout, to io::copy — the content bytes as well; stdout is what the branch
wrote to the process output stream. -/
structure CatResult where
  buf : Bytes
  stdout : Bytes
deriving DecidableEq

/-- ASCII bytes of "blob". -/
def blobBytes : Bytes := strBytes "blob"

/-- ASCII bytes of "blob " (with the trailing space). -/
def blobSpaceBytes : Bytes := strBytes "blob "

/-- The CatFile branch of main from the point where the decompressed object
stream data is available, with io::copy buffer size B. In source order:
read_until(0) into buf; CStr::from_bytes_until_nul — which panics through
expect when the stream holds no NUL at all; to_str (UTF-8 check);
split_once(space); match of the kind token; strip of the "blob " tag;
parse::<u64> of the size; io::copy through a LimitReader into buf (the Vec,
not stdout); ensure that the copied count equals the declared size. The
branch never writes to stdout. -/
def catFileFromStream (B : Nat) (data : Bytes) : Outcome CatResult :=
  let buf0 := takeThroughNul data
  if 0 ∈ buf0 then
    let header := buf0.takeWhile (fun b => !(b == 0))
    if utf8Valid header then
      match header.findIdx? (fun b => b == 32) with
      | none => .err .corruptNoSpace
      | some i =>
        let kind := header.take i
        if kind = blobBytes then
          if blobSpaceBytes.isPrefixOf header then
            match parseU64 (header.drop 5) with
            | none => .err .corruptBadSize
            | some size =>
              match copyLoopBytes B size (dropThroughNul data) with
              | none => .err .limitExceeded
              | some copied =>
                if copied.length = size then .ok ⟨buf0 ++ copied, []⟩
                else .err .sizeMismatch
          else .err .corruptNoBlobTag
        else .err .unsupportedKind
    else .err .corruptUtf8
  else .panic

/-- Result of the front of the CatFile branch, before any object data is
read: the InvalidInput error, a panic (byte-slicing the hash argument off a
character boundary), or the File::open request for the derived object
path. -/
inductive FrontResult
  | err : GetError → FrontResult
  | panic : FrontResult
  | fsOpen : Bytes → FrontResult
deriving DecidableEq

/-- The object path ".git/objects/" ++ first two bytes ++ "/" ++ rest. -/
def objPathOf (hash : Bytes) : Bytes :=
  strBytes ".git/objects/" ++ hash.take 2 ++ [47] ++ hash.drop 2

/-- The CatFile branch from the hash argument (its UTF-8 bytes) up to the
File::open call: the code validates only the length (ensure len == 40);
the argument is then byte-sliced at index 2 — a panic when index 2 is not a
character boundary — and the object path is opened. No hex-character check
occurs anywhere in the branch. -/
def catFileFront (hash : Bytes) : FrontResult :=
  if hash.length = 40 then
    if isContByte (hash.getD 2 0) then .panic
    else .fsOpen (objPathOf hash)
  else .err .invalidInput

/-- Whether a byte is an ASCII hexadecimal digit. -/
def isHexDigitByte (b : Nat) : Bool :=
  (48 ≤ b && b ≤ 57) || (97 ≤ b && b ≤ 102) || (65 ≤ b && b ≤ 70)

/-- Lowercase hex digit byte of a value below 16. -/
def hexDigitByte (v : Nat) : Nat := if v < 10 then 48 + v else 87 + v

/-- hex::encode: two lowercase hex digit bytes per input byte. -/
def hexEncode (bs : Bytes) : Bytes :=
  bs.foldr (fun b acc => hexDigitByte (b / 16) :: hexDigitByte (b % 16) :: acc) []

/-- HashWriter state: the bytes accepted so far by the inner writer, and
the bytes folded so far into the SHA-1 digest state. -/
structure HWState where
  accepted : Bytes
  hashed : Bytes
deriving DecidableEq

/-- HashWriter::write: the inner writer accepts some count n of the buffer
(none models an inner-writer error, propagated by the question-mark before
any digest update); the digest is then updated with buf[..n]. The Write
contract bounds n by the buffer length, modeled by the min. -/
def hwWrite (st : HWState) (buf : Bytes) (res : Option Nat) : HWState :=
  match res with
  | none => st
  | some n =>
    { accepted := st.accepted ++ buf.take (min n buf.length),
      hashed := st.hashed ++ buf.take (min n buf.length) }

/-- A sequence of HashWriter::write calls. -/
def hwRun (st : HWState) : List (Bytes × Option Nat) → HWState
  | [] => st
  | (buf, res) :: rest => hwRun (hwWrite st buf res) rest

/-- The uncompressed byte stream write_blob pushes through the HashWriter:
write of "blob", then write of the decimal size followed directly by the
NUL — the source puts no space between them — then the file content. -/
def writeBlobStream (content : Bytes) : Bytes :=
  blobBytes ++ (decimalDigits content.length ++ [0]) ++ content

/-- write_blob with the SHA-1 compression function H and the zlib deflate
function compress as parameters (both external library code): the three
writes run through the HashWriter wrapped around the encoder (write and
io::copy drive write until every byte is accepted), the encoder is
finished, the digest finalized. Returns (lowercase hex digest bytes,
compressed file bytes). -/
def write_blob (H : Bytes → Bytes) (compress : Bytes → Bytes) (content : Bytes) :
    Bytes × Bytes :=
  let st := hwRun ⟨[], []⟩
    [(blobBytes, some blobBytes.length),
     (decimalDigits content.length ++ [0],
      some (decimalDigits content.length ++ [0]).length),
     (content, some content.length)]
  (hexEncode (H st.hashed), compress st.accepted)

/-- Modelled from the spec: encode(kind, size) produces
ascii(kind) ++ " " ++ decimal(size) ++ NUL; for the blob kind this is
"blob " followed by the decimal size and the NUL terminator. Stated here
only for comparison against the header the code actually writes. -/
def specEncodeHeader (size : Nat) : Bytes :=
  blobSpaceBytes ++ decimalDigits size ++ [0]

/-- The filesystem as an association list from path bytes to file bytes. -/
abbrev FileSys := List (Bytes × Bytes)

/-- Create or overwrite a file. -/
def fsWrite (fs : FileSys) (path contents : Bytes) : FileSys :=
  (path, contents) :: fs.filter (fun e => !(e.1 == path))

/-- fs::rename: move the file at src to dst (overwriting dst). -/
def fsRename (fs : FileSys) (src dst : Bytes) : FileSys :=
  match fs.find? (fun e => e.1 == src) with
  | none => fs
  | some e => fsWrite (fs.filter (fun x => !(x.1 == src))) dst e.2

/-- The HashObject branch of main: with the write flag set, write_blob
streams into File::create("temporary") and the temporary file is renamed
to the object path; without it, write_blob streams into io::sink() and the
filesystem is untouched. Returns the printed hex hash and the resulting
filesystem. -/
def hashObject (H compress : Bytes → Bytes) (writeFlag : Bool) (content : Bytes)
    (fs : FileSys) : Bytes × FileSys :=
  if writeFlag then
    let r := write_blob H compress content
    let fs1 := fsWrite fs (strBytes "temporary") r.2
    (r.1, fsRename fs1 (strBytes "temporary") (objPathOf r.1))
  else
    ((write_blob H compress content).1, fs)

/-! ### Helper lemmas -/

theorem decimalDigitsAux_mem {fuel n b : Nat} (hb : b ∈ decimalDigitsAux fuel n) :
    48 ≤ b ∧ b ≤ 57 := by
  induction fuel generalizing n with
  | zero => simp [decimalDigitsAux] at hb
  | succ fuel ih =>
    simp only [decimalDigitsAux] at hb
    by_cases h : n < 10
    · simp [h] at hb
      omega
    · simp only [h, if_false, List.mem_append, List.mem_singleton] at hb
      rcases hb with hb | hb
      · exact ih hb
      · omega

theorem decimalDigits_mem {n b : Nat} (hb : b ∈ decimalDigits n) :
    48 ≤ b ∧ b ≤ 57 :=
  decimalDigitsAux_mem hb

theorem decimalDigitsAux_ne_nil {fuel n : Nat} (h : n < fuel) :
    decimalDigitsAux fuel n ≠ [] := by
  cases fuel with
  | zero => omega
  | succ fuel =>
    simp only [decimalDigitsAux]
    by_cases h10 : n < 10 <;> simp [h10]

theorem decimalDigitsAux_foldl (fuel : Nat) :
    ∀ n a, n < fuel →
      (decimalDigitsAux fuel n).foldl (fun acc b => acc * 10 + digitVal b) a =
        a * 10 ^ (decimalDigitsAux fuel n).length + n := by
  induction fuel with
  | zero => intro n a h; omega
  | succ fuel ih =>
    intro n a h
    simp only [decimalDigitsAux]
    by_cases h10 : n < 10
    · simp [h10, digitVal]
    · have hnn : 0 < n := by omega
      have hrec : n / 10 < fuel := by
        have hlt : n / 10 < n := Nat.div_lt_self hnn (by omega)
        omega
      simp only [h10, if_false, List.foldl_append, List.length_append,
        List.foldl_cons, List.foldl_nil, List.length_cons, List.length_nil]
      rw [ih (n / 10) a hrec]
      have hd : digitVal (48 + n % 10) = n % 10 := by
        simp [digitVal]
      rw [hd, pow_succ, ← mul_assoc]
      generalize a * 10 ^ (decimalDigitsAux fuel (n / 10)).length = A
      omega

theorem parseU64_decimalDigits {n : Nat} (h : n ≤ u64Max) :
    parseU64 (decimalDigits n) = some n := by
  have hne : decimalDigits n ≠ [] := decimalDigitsAux_ne_nil (Nat.lt_succ_self n)
  obtain ⟨b, l, hbl⟩ : ∃ b l, decimalDigits n = b :: l := by
    cases hd : decimalDigits n with
    | nil => exact absurd hd hne
    | cons b l => exact ⟨b, l, rfl⟩
  have hb48 : 48 ≤ b := (decimalDigits_mem (by rw [hbl]; exact List.mem_cons_self b l)).1
  unfold parseU64
  rw [hbl]
  simp only [List.headD_cons]
  have hb43 : ¬(b = 43) := by omega
  simp only [hb43, if_false]
  have hall : (b :: l).all isDigitByte = true := by
    rw [List.all_eq_true]
    intro x hx
    have hm : x ∈ decimalDigits n := by rw [hbl]; exact hx
    have := decimalDigits_mem hm
    simp [isDigitByte]
    omega
  have hfold : (b :: l).foldl (fun acc b => acc * 10 + digitVal b) 0 = n := by
    have := decimalDigitsAux_foldl (n + 1) n 0 (Nat.lt_succ_self n)
    rw [decimalDigits] at hbl
    rw [hbl] at this
    simpa using this
  simp [hall, hfold, h]

theorem utf8Valid_of_ascii {l : Bytes} (h : ∀ b ∈ l, b < 128) :
    utf8Valid l = true := by
  induction l with
  | nil => rfl
  | cons b bs ih =>
    have hb : b < 128 := h b (List.mem_cons_self b bs)
    have hstep : utf8Valid (b :: bs) = utf8Valid bs := by
      simp only [utf8Valid, utf8ValidFrom, if_pos hb]
    rw [hstep]
    exact ih (fun x hx => h x (List.mem_cons_of_mem b hx))

theorem takeThroughNul_of_not_mem {l : Bytes} (h : 0 ∉ l) :
    takeThroughNul l = l := by
  induction l with
  | nil => rfl
  | cons b bs ih =>
    have hb : ¬(b = 0) := fun hb => h (by simp [hb])
    simp only [takeThroughNul, hb, if_false]
    rw [ih (fun hm => h (List.mem_cons_of_mem b hm))]

theorem takeThroughNul_append {pre : Bytes} (h : 0 ∉ pre) (post : Bytes) :
    takeThroughNul (pre ++ 0 :: post) = pre ++ [0] := by
  induction pre with
  | nil => simp [takeThroughNul]
  | cons b bs ih =>
    have hb : ¬(b = 0) := fun hb => h (by simp [hb])
    simp only [List.cons_append, takeThroughNul, hb, if_false, List.append_eq]
    rw [ih (fun hm => h (List.mem_cons_of_mem b hm))]

theorem dropThroughNul_append {pre : Bytes} (h : 0 ∉ pre) (post : Bytes) :
    dropThroughNul (pre ++ 0 :: post) = post := by
  induction pre with
  | nil => simp [dropThroughNul]
  | cons b bs ih =>
    have hb : ¬(b = 0) := fun hb => h (by simp [hb])
    simp only [List.cons_append, dropThroughNul, hb, if_false, List.append_eq]
    exact ih (fun hm => h (List.mem_cons_of_mem b hm))

theorem takeWhileNotNul_append {pre : Bytes} (h : 0 ∉ pre) (post : Bytes) :
    (pre ++ 0 :: post).takeWhile (fun b => !(b == 0)) = pre := by
  induction pre with
  | nil => simp [List.takeWhile_cons]
  | cons b bs ih =>
    have hb : ¬(b = 0) := fun hb => h (by simp [hb])
    have ih2 := ih (fun hm => h (List.mem_cons_of_mem b hm))
    simp [List.takeWhile_cons, hb, ih2]

theorem lrCap_pos {B limit : Nat} (hB : 1 ≤ B) : 1 ≤ lrCap limit B := by
  unfold lrCap
  split <;> omega

theorem copyLoopAux_all (B : Nat) (hB : 1 ≤ B) :
    ∀ fuel (src : Bytes) (limit : Nat), src.length < fuel → src.length ≤ limit →
      copyLoopAux B fuel limit src = some src := by
  intro fuel
  induction fuel with
  | zero => intro src limit hf; omega
  | succ fuel ih =>
    intro src limit hf hl
    simp only [copyLoopAux]
    cases src with
    | nil => simp
    | cons b bs =>
      have hlen : (b :: bs).length = bs.length + 1 := rfl
      have hn1 : 1 ≤ min (lrCap limit B) (b :: bs).length :=
        Nat.le_min.mpr ⟨lrCap_pos hB, by simp⟩
      have hnle : min (lrCap limit B) (b :: bs).length ≤ (b :: bs).length :=
        Nat.min_le_right _ _
      rw [if_neg (by omega), if_neg (by omega)]
      rw [ih ((b :: bs).drop (min (lrCap limit B) (b :: bs).length))
            (limit - min (lrCap limit B) (b :: bs).length)
            (by simp only [List.length_drop]; omega)
            (by simp only [List.length_drop]; omega)]
      simp

theorem copyLoopAux_over (B : Nat) (hB : 1 ≤ B) :
    ∀ fuel (limit : Nat) (src : Bytes), limit < fuel → limit < src.length →
      copyLoopAux B fuel limit src = none := by
  intro fuel
  induction fuel with
  | zero => intro limit src hf; omega
  | succ fuel ih =>
    intro limit src hf hl
    simp only [copyLoopAux]
    by_cases hBl : B > limit
    · have hcap : lrCap limit B = limit + 1 := by simp [lrCap, hBl]
      have hn : min (lrCap limit B) src.length = limit + 1 := by
        rw [hcap]; omega
      rw [hn]
      rw [if_neg (by omega), if_pos (by omega)]
    · have hcap : lrCap limit B = B := by simp [lrCap, hBl]
      have hn : min (lrCap limit B) src.length = B := by
        rw [hcap]; omega
      rw [hn]
      rw [if_neg (by omega), if_neg (by omega)]
      rw [ih (limit - B) (src.drop B) (by omega)
            (by simp only [List.length_drop]; omega)]

theorem copyLoopBytes_all {B limit : Nat} {src : Bytes} (hB : 1 ≤ B)
    (h : src.length ≤ limit) : copyLoopBytes B limit src = some src :=
  copyLoopAux_all B hB (src.length + 1) src limit (Nat.lt_succ_self _) h

theorem copyLoopBytes_over {B limit : Nat} {src : Bytes} (hB : 1 ≤ B)
    (h : limit < src.length) : copyLoopBytes B limit src = none :=
  copyLoopAux_over B hB (src.length + 1) limit src (by omega) h

theorem hwRun_hashed_eq_accepted (calls : List (Bytes × Option Nat)) :
    ∀ st : HWState, st.hashed = st.accepted →
      (hwRun st calls).hashed = (hwRun st calls).accepted := by
  induction calls with
  | nil => intro st h; simpa [hwRun] using h
  | cons c rest ih =>
    intro st h
    obtain ⟨buf, res⟩ := c
    simp only [hwRun]
    apply ih
    cases res with
    | none => simpa [hwWrite] using h
    | some n => simp [hwWrite, h]

theorem findIdxSpace_append {kind : Bytes} (h32 : ∀ b ∈ kind, ¬(b = 32))
    (rest : Bytes) :
    (kind ++ 32 :: rest).findIdx? (fun b => b == 32) = some kind.length := by
  have hk : kind.findIdx? (fun b => b == 32) = none := by
    rw [List.findIdx?_eq_none_iff]
    intro x hx
    simp [h32 x hx]
  simp [List.findIdx?_append, hk, List.findIdx?_cons]

/-- The read path on a stream whose pre-NUL segment holds no space: the
corrupt-header error (no-space bail, or the UTF-8 failure of to_str). -/
theorem catFileFromStream_no_space (B : Nat) {pre : Bytes} (post : Bytes)
    (h0 : 0 ∉ pre) (h32 : 32 ∉ pre) :
    catFileFromStream B (pre ++ 0 :: post) =
      if utf8Valid pre then .err .corruptNoSpace else .err .corruptUtf8 := by
  simp only [catFileFromStream]
  rw [takeThroughNul_append h0, takeWhileNotNul_append h0 []]
  have hmem : 0 ∈ pre ++ [0] := by simp
  rw [if_pos hmem]
  have hf : pre.findIdx? (fun b => b == 32) = none := by
    rw [List.findIdx?_eq_none_iff]
    intro x hx
    have : ¬(x = 32) := fun hx32 => h32 (hx32 ▸ hx)
    simp [this]
  by_cases hu : utf8Valid pre
  · rw [if_pos hu, if_pos hu, hf]
  · rw [if_neg hu, if_neg hu]

/-- The read path on a stream whose pre-NUL segment is "blob " followed by
a size token: the remaining behavior is the size parse, the bounded copy
and the final size check. -/
theorem catFileFromStream_blob_header (B : Nat) {t : Bytes} (post : Bytes)
    (h0 : 0 ∉ t) (hu : utf8Valid (blobSpaceBytes ++ t) = true) :
    catFileFromStream B (blobSpaceBytes ++ t ++ 0 :: post) =
      match parseU64 t with
      | none => .err .corruptBadSize
      | some size =>
        match copyLoopBytes B size post with
        | none => .err .limitExceeded
        | some copied =>
          if copied.length = size then .ok ⟨(blobSpaceBytes ++ t) ++ [0] ++ copied, []⟩
          else .err .sizeMismatch := by
  have h0pre : 0 ∉ blobSpaceBytes ++ t := by
    intro hm
    rcases List.mem_append.mp hm with hm | hm
    · revert hm; decide
    · exact h0 hm
  have hassoc : blobSpaceBytes ++ t ++ 0 :: post = (blobSpaceBytes ++ t) ++ 0 :: post := by
    rw [List.append_assoc]
  rw [hassoc]
  simp only [catFileFromStream]
  rw [takeThroughNul_append h0pre, takeWhileNotNul_append h0pre [],
    dropThroughNul_append h0pre]
  have hmem : 0 ∈ (blobSpaceBytes ++ t) ++ [0] := by simp
  rw [if_pos hmem, if_pos hu]
  have hbs : blobSpaceBytes = [98, 108, 111, 98] ++ [32] := by decide
  have hf : (blobSpaceBytes ++ t).findIdx? (fun b => b == 32) = some 4 := by
    rw [hbs, List.append_assoc, List.singleton_append]
    rw [@findIdxSpace_append [98, 108, 111, 98] (by decide) t]
    rfl
  simp only [hf]
  have htake : (blobSpaceBytes ++ t).take 4 = blobBytes := by
    rw [hbs, List.append_assoc, List.singleton_append]
    rw [List.take_left' (by decide)]
    decide
  rw [htake, if_pos rfl]
  have hpre : blobSpaceBytes.isPrefixOf (blobSpaceBytes ++ t) = true := by
    rw [List.isPrefixOf_iff_prefix]
    exact List.prefix_append _ _
  rw [if_pos hpre]
  have hdrop : (blobSpaceBytes ++ t).drop 5 = t :=
    List.drop_left' (by decide)
  rw [hdrop]

/-- The read path on a stream whose header names a kind other than blob:
the unsupported-kind bail, reached before the size parse. -/
theorem catFileFromStream_bad_kind (B : Nat) {kind : Bytes} (rest content : Bytes)
    (hascii : ∀ b ∈ kind, b < 128 ∧ ¬(b = 0) ∧ ¬(b = 32))
    (hrest0 : 0 ∉ rest) (hrestA : ∀ b ∈ rest, b < 128)
    (hkind : ¬(kind = blobBytes)) :
    catFileFromStream B (kind ++ 32 :: rest ++ 0 :: content) =
      .err .unsupportedKind := by
  have h0pre : 0 ∉ kind ++ 32 :: rest := by
    intro hm
    rcases List.mem_append.mp hm with hm | hm
    · exact (hascii 0 hm).2.1 rfl
    · rcases List.mem_cons.mp hm with hm | hm
      · omega
      · exact hrest0 hm
  have hassoc : kind ++ 32 :: rest ++ 0 :: content = (kind ++ 32 :: rest) ++ 0 :: content := by
    simp
  rw [hassoc]
  simp only [catFileFromStream]
  rw [takeThroughNul_append h0pre, takeWhileNotNul_append h0pre []]
  have hmem : 0 ∈ (kind ++ 32 :: rest) ++ [0] := by simp
  rw [if_pos hmem]
  have hu : utf8Valid (kind ++ 32 :: rest) = true := by
    apply utf8Valid_of_ascii
    intro b hb
    rcases List.mem_append.mp hb with hb | hb
    · exact (hascii b hb).1
    · rcases List.mem_cons.mp hb with hb | hb
      · omega
      · exact hrestA b hb
  rw [if_pos hu]
  simp only [findIdxSpace_append (fun b hb => (hascii b hb).2.2) rest]
  rw [List.take_left' rfl]
  rw [if_neg hkind]

/-- The read path on a stream whose pre-NUL segment is not valid UTF-8:
the to_str failure. -/
theorem catFileFromStream_bad_utf8 (B : Nat) {pre : Bytes} (post : Bytes)
    (h0 : 0 ∉ pre) (hu : utf8Valid pre = false) :
    catFileFromStream B (pre ++ 0 :: post) = .err .corruptUtf8 := by
  simp only [catFileFromStream]
  rw [takeThroughNul_append h0, takeWhileNotNul_append h0 []]
  rw [if_pos (by simp), if_neg (by simp [hu])]

/-- The hex digest write_blob returns is the digest of the uncompressed
stream "blob" ++ decimal size ++ NUL ++ content. -/
theorem write_blob_hash_eq (H compress : Bytes → Bytes) (content : Bytes) :
    (write_blob H compress content).1 = hexEncode (H (writeBlobStream content)) := by
  have htake : List.take (List.length (decimalDigits content.length) + 1)
      (decimalDigits content.length ++ [0]) = decimalDigits content.length ++ [0] :=
    List.take_of_length_le (by simp)
  simp [write_blob, hwRun, hwWrite, writeBlobStream, htake]

/-! ### Claim theorems -/

/-- Claim C1 (code bug): the put/get round trip always fails. The write
path emits the header with no space between the kind and the size
("blob<size>NUL"), so the read path's split at the first space fails and
cat_file returns the corrupt-header error instead of the stored content —
for every content, the empty sequence included. -/
theorem c1_write_read_roundtrip_fails (B : Nat) (c : Bytes) :
    catFileFromStream B (writeBlobStream c) = .err .corruptNoSpace := by
  have hblob : ∀ x ∈ blobBytes, x < 128 ∧ ¬(x = 0) ∧ ¬(x = 32) := by decide
  have h0 : 0 ∉ blobBytes ++ decimalDigits c.length := by
    intro hm
    rcases List.mem_append.mp hm with hm | hm
    · exact (hblob 0 hm).2.1 rfl
    · have := decimalDigits_mem hm; omega
  have h32 : 32 ∉ blobBytes ++ decimalDigits c.length := by
    intro hm
    rcases List.mem_append.mp hm with hm | hm
    · exact (hblob 32 hm).2.2 rfl
    · have := decimalDigits_mem hm; omega
  have hu : utf8Valid (blobBytes ++ decimalDigits c.length) = true := by
    apply utf8Valid_of_ascii
    intro b hb
    rcases List.mem_append.mp hb with hb | hb
    · exact (hblob b hb).1
    · have := decimalDigits_mem hb; omega
  have hshape : writeBlobStream c = (blobBytes ++ decimalDigits c.length) ++ 0 :: c := by
    simp [writeBlobStream]
  rw [hshape, catFileFromStream_no_space B c h0 h32, if_pos hu]

/-- Claim C2 (code bug): the header the write path actually produces for
the 12-byte content "hello world\n" is "blob12" ++ NUL — no space between
the kind and the size — so the digest input is "blob12\0hello world\n",
not the spec's "blob 12\0hello world\n"; the hash returned is the hex
digest of exactly the written (space-less) stream. -/
theorem c2_header_written_without_space :
    (∀ H compress : Bytes → Bytes,
      (write_blob H compress (strBytes "hello world\n")).1 =
        hexEncode (H (strBytes "blob12\x00hello world\n"))) ∧
    writeBlobStream (strBytes "hello world\n") = strBytes "blob12\x00hello world\n" ∧
    specEncodeHeader 12 ++ strBytes "hello world\n" =
      strBytes "blob 12\x00hello world\n" ∧
    ¬(writeBlobStream (strBytes "hello world\n") =
      specEncodeHeader 12 ++ strBytes "hello world\n") := by
  refine ⟨?_, by decide, by decide, by decide⟩
  intro H compress
  have h : writeBlobStream (strBytes "hello world\n") =
      strBytes "blob12\x00hello world\n" := by decide
  rw [← h]
  exact write_blob_hash_eq H compress (strBytes "hello world\n")

/-- Claim C3 (code bug): on a well-formed stored object the CatFile branch
succeeds, but io::copy is handed the in-memory header Vec rather than
stdout, so the content bytes are appended after the header bytes in that
buffer and nothing at all reaches the output stream: the bytes printed are
empty, not the object content. -/
theorem c3_cat_file_writes_nothing_to_stdout :
    catFileFromStream 8192 (strBytes "blob 3\x00abc") =
      .ok ⟨strBytes "blob 3\x00abc", []⟩ ∧
    ¬(([] : Bytes) = strBytes "abc") := by decide

/-- Claim C4 counterexample: the 40-character argument made of the non-hex
letter z passes the only validation there is (the length check) and the
branch proceeds to the filesystem open of the derived path — it is not
rejected as InvalidInput even though every character is non-hex. -/
theorem c4_nonhex_hash_reaches_filesystem :
    catFileFront (List.replicate 40 122) =
      .fsOpen (objPathOf (List.replicate 40 122)) ∧
    (List.replicate 40 122).length = 40 ∧
    isHexDigitByte 122 = false := by decide

/-- Claim C4 amended: the CatFile branch validates only the length of the
hash argument. An argument whose byte length differs from 40 fails with
InvalidInput before any filesystem access; a 40-byte argument is never
rejected as InvalidInput, whatever its characters. -/
theorem c4_only_length_validated :
    (∀ hash : Bytes, ¬(hash.length = 40) →
      catFileFront hash = .err .invalidInput) ∧
    (∀ hash : Bytes, hash.length = 40 →
      ¬(catFileFront hash = .err .invalidInput)) := by
  constructor
  · intro hash h
    simp [catFileFront, h]
  · intro hash h
    simp only [catFileFront, if_pos h]
    split <;> simp

theorem c4_only_length_validated_witness :
    catFileFront (strBytes "abc") = .err .invalidInput ∧
    ¬(catFileFront (List.replicate 40 122) = .err .invalidInput) :=
  ⟨c4_only_length_validated.1 (strBytes "abc") (by decide),
   c4_only_length_validated.2 (List.replicate 40 122) (by decide)⟩

/-- Claim C5 (code bug): a decompressed stream with no NUL anywhere makes
the CatFile branch panic (the CStr expect) instead of returning a Corrupt
error; a stream with a NUL but no space before it does fail with a
corrupt-header error; a stream whose size token fails to parse as a u64
does fail with a corrupt-header error. -/
theorem c5_header_malformations (B : Nat) :
    (∀ data : Bytes, 0 ∉ data → catFileFromStream B data = .panic) ∧
    (∀ pre post : Bytes, 0 ∉ pre → 32 ∉ pre →
      ∃ e, catFileFromStream B (pre ++ 0 :: post) = .err e ∧ isCorrupt e = true) ∧
    (∀ t post : Bytes, 0 ∉ t → parseU64 t = none →
      ∃ e, catFileFromStream B (blobSpaceBytes ++ t ++ 0 :: post) = .err e ∧
        isCorrupt e = true) := by
  refine ⟨?_, ?_, ?_⟩
  · intro data h0
    simp only [catFileFromStream]
    rw [takeThroughNul_of_not_mem h0, if_neg h0]
  · intro pre post h0 h32
    rw [catFileFromStream_no_space B post h0 h32]
    by_cases hu : utf8Valid pre
    · exact ⟨.corruptNoSpace, by rw [if_pos hu], rfl⟩
    · exact ⟨.corruptUtf8, by rw [if_neg hu], rfl⟩
  · intro t post h0 hp
    have h0pre : 0 ∉ blobSpaceBytes ++ t := by
      intro hm
      rcases List.mem_append.mp hm with hm | hm
      · revert hm; decide
      · exact h0 hm
    by_cases hu : utf8Valid (blobSpaceBytes ++ t)
    · refine ⟨.corruptBadSize, ?_, rfl⟩
      rw [catFileFromStream_blob_header B post h0 hu]
      simp [hp]
    · refine ⟨.corruptUtf8, ?_, rfl⟩
      have hassoc : blobSpaceBytes ++ t ++ 0 :: post =
          (blobSpaceBytes ++ t) ++ 0 :: post := by
        rw [List.append_assoc]
      rw [hassoc]
      exact catFileFromStream_bad_utf8 B post h0pre (by simpa using hu)

theorem c5_header_malformations_witness :
    catFileFromStream 8192 (strBytes "blob") = .panic ∧
    (∃ e, catFileFromStream 8192 (strBytes "xyz" ++ 0 :: []) = .err e ∧
      isCorrupt e = true) ∧
    (∃ e, catFileFromStream 8192 (blobSpaceBytes ++ strBytes "12a" ++ 0 :: []) =
      .err e ∧ isCorrupt e = true) :=
  ⟨(c5_header_malformations 8192).1 (strBytes "blob") (by decide),
   (c5_header_malformations 8192).2.1 (strBytes "xyz") [] (by decide) (by decide),
   (c5_header_malformations 8192).2.2 (strBytes "12a") [] (by decide) (by decide)⟩

/-- Claim C6: across any sequence of reads the LimitReader yields at most
limit bytes in total; and when a single read is offered a caller buffer
and an underlying source that together would supply more than the
remaining limit allows, that read returns the limit-exceeded error rather
than data. -/
theorem c6_limit_reader_bound :
    (∀ (limit : Nat) (calls : List (Nat × Nat)), (lrRun limit calls).1 ≤ limit) ∧
    (∀ limit bufLen avail : Nat, limit < min bufLen avail →
      lrReadSlice limit bufLen avail = none) := by
  constructor
  · intro limit calls
    induction calls generalizing limit with
    | nil => simp [lrRun]
    | cons c rest ih =>
      obtain ⟨bufLen, n⟩ := c
      simp only [lrRun, lrReadStep]
      by_cases hk : min n (lrCap limit bufLen) > limit
      · rw [if_pos hk]
        simp
      · rw [if_neg hk]
        simp only []
        have hrec := ih (limit - min n (lrCap limit bufLen))
        omega
  · intro limit bufLen avail h
    have hb : bufLen > limit := by omega
    have hcap : lrCap limit bufLen = limit + 1 := by simp [lrCap, hb]
    simp only [lrReadSlice, hcap]
    rw [if_pos (by omega)]

theorem c6_limit_reader_bound_witness :
    (lrRun 2 [(5, 1), (5, 1), (5, 1)]).1 ≤ 2 ∧ lrReadSlice 0 5 3 = none :=
  ⟨c6_limit_reader_bound.1 2 [(5, 1), (5, 1), (5, 1)],
   c6_limit_reader_bound.2 0 5 3 (by decide)⟩

/-- Claim C7: a stored object (with a well-formed "blob <size>NUL" header)
whose decompressed content is shorter than the declared size fails the
read path with the final size-check error, and one with trailing bytes
beyond the declared size fails with the LimitReader's limit-exceeded
error — both classified as SizeMismatch by the design. -/
theorem c7_size_enforcement (B size : Nat) (content : Bytes)
    (hB : 1 ≤ B) (hsize : size ≤ u64Max) :
    (content.length < size →
      ∃ e, catFileFromStream B (specEncodeHeader size ++ content) = .err e ∧
        isSizeMismatch e = true) ∧
    (size < content.length →
      ∃ e, catFileFromStream B (specEncodeHeader size ++ content) = .err e ∧
        isSizeMismatch e = true) := by
  have h0 : 0 ∉ decimalDigits size := by
    intro hm
    have := decimalDigits_mem hm
    omega
  have hu : utf8Valid (blobSpaceBytes ++ decimalDigits size) = true := by
    apply utf8Valid_of_ascii
    intro b hb
    rcases List.mem_append.mp hb with hb | hb
    · have hsp : ∀ x ∈ blobSpaceBytes, x < 128 := by decide
      exact hsp b hb
    · have := decimalDigits_mem hb; omega
  have hshape : specEncodeHeader size ++ content =
      blobSpaceBytes ++ decimalDigits size ++ 0 :: content := by
    simp [specEncodeHeader]
  constructor
  · intro hlt
    refine ⟨.sizeMismatch, ?_, rfl⟩
    rw [hshape, catFileFromStream_blob_header B content h0 hu]
    simp only [parseU64_decimalDigits hsize]
    simp only [copyLoopBytes_all hB (le_of_lt hlt)]
    rw [if_neg (by omega)]
  · intro hgt
    refine ⟨.limitExceeded, ?_, rfl⟩
    rw [hshape, catFileFromStream_blob_header B content h0 hu]
    simp only [parseU64_decimalDigits hsize]
    simp only [copyLoopBytes_over hB hgt]

theorem c7_size_enforcement_witness :
    (∃ e, catFileFromStream 8192 (specEncodeHeader 3 ++ strBytes "ab") = .err e ∧
      isSizeMismatch e = true) ∧
    (∃ e, catFileFromStream 8192 (specEncodeHeader 3 ++ strBytes "abcd") = .err e ∧
      isSizeMismatch e = true) :=
  ⟨(c7_size_enforcement 8192 3 (strBytes "ab") (by decide) (by decide)).1 (by decide),
   (c7_size_enforcement 8192 3 (strBytes "abcd") (by decide) (by decide)).2 (by decide)⟩

/-- Claim C8: a stored object whose header names any kind other than blob
(an ASCII kind token, followed by a space, a size token and the NUL) makes
the read path fail with the unsupported-kind error, reached before the
size is even parsed. -/
theorem c8_non_blob_kind_unsupported (B : Nat) (kind rest content : Bytes)
    (hascii : ∀ b ∈ kind, b < 128 ∧ ¬(b = 0) ∧ ¬(b = 32))
    (hrest0 : 0 ∉ rest) (hrestA : ∀ b ∈ rest, b < 128)
    (hkind : ¬(kind = blobBytes)) :
    catFileFromStream B (kind ++ 32 :: rest ++ 0 :: content) =
      .err .unsupportedKind :=
  catFileFromStream_bad_kind B rest content hascii hrest0 hrestA hkind

theorem c8_non_blob_kind_unsupported_witness :
    catFileFromStream 8192 (strBytes "tree 4\x00abcd") = .err .unsupportedKind := by
  have h : strBytes "tree 4\x00abcd" =
      strBytes "tree" ++ 32 :: (strBytes "4" ++ 0 :: strBytes "abcd") := by decide
  rw [h]
  exact c8_non_blob_kind_unsupported 8192 (strBytes "tree") (strBytes "4")
    (strBytes "abcd") (by decide) (by decide) (by decide) (by decide)

/-- Claim C9: over any sequence of writes through the pipeline the digest
state holds exactly the bytes the downstream sink accepted; a single write
folds in exactly the first n bytes the inner writer accepted; and the hex
digest write_blob returns depends only on the uncompressed header+content
stream — swapping the compression function never changes it (compressed
bytes are never hashed). -/
theorem c9_hasher_sees_exactly_accepted_bytes :
    (∀ calls : List (Bytes × Option Nat),
      (hwRun ⟨[], []⟩ calls).hashed = (hwRun ⟨[], []⟩ calls).accepted) ∧
    (∀ (st : HWState) (buf : Bytes) (n : Nat), n ≤ buf.length →
      (hwWrite st buf (some n)).hashed = st.hashed ++ buf.take n) ∧
    (∀ (H compress1 compress2 : Bytes → Bytes) (content : Bytes),
      (write_blob H compress1 content).1 = (write_blob H compress2 content).1) := by
  refine ⟨?_, ?_, ?_⟩
  · intro calls
    exact hwRun_hashed_eq_accepted calls ⟨[], []⟩ rfl
  · intro st buf n h
    simp [hwWrite, Nat.min_eq_left h]
  · intro H compress1 compress2 content
    rw [write_blob_hash_eq H compress1 content, write_blob_hash_eq H compress2 content]

theorem c9_hasher_witness :
    (hwRun ⟨[], []⟩ [(strBytes "ab", some 1), (strBytes "cd", none)]).hashed =
      (hwRun ⟨[], []⟩ [(strBytes "ab", some 1), (strBytes "cd", none)]).accepted ∧
    (hwWrite ⟨[], []⟩ (strBytes "abc") (some 2)).hashed =
      (⟨[], []⟩ : HWState).hashed ++ (strBytes "abc").take 2 ∧
    (write_blob (fun x => x) (fun x => x) (strBytes "hi")).1 =
      (write_blob (fun x => x) (fun _ => []) (strBytes "hi")).1 :=
  ⟨c9_hasher_sees_exactly_accepted_bytes.1 [(strBytes "ab", some 1), (strBytes "cd", none)],
   c9_hasher_sees_exactly_accepted_bytes.2.1 ⟨[], []⟩ (strBytes "abc") 2 (by decide),
   c9_hasher_sees_exactly_accepted_bytes.2.2 (fun x => x) (fun x => x) (fun _ => [])
     (strBytes "hi")⟩

/-- Claim C10: hash_object without the write flag prints exactly the hex
hash the write path would print for the same content, and leaves the
filesystem — and with it the object store — completely unchanged: no
temporary file is created and no object file appears. -/
theorem c10_dry_run_same_hash_no_store_change
    (H compress : Bytes → Bytes) (content : Bytes) (fs : FileSys) :
    (hashObject H compress false content fs).1 =
      (hashObject H compress true content fs).1 ∧
    (hashObject H compress false content fs).2 = fs := by
  constructor
  · simp [hashObject]
  · simp [hashObject]

end GitCore
